import Mathlib

/-!
Shallow embedding of `src/Main.py` (PayhipDiscordBot): the polling-and-
deduplication loop of `PayhipMonitor`.  Pure data flow is embedded directly;
the effectful pieces (`requests.get`, `bot.get_channel`, `channel.send`) are
modelled by explicit inputs describing what the external world answered, and
each function returns the log lines / state changes it performs.
-/

set_option linter.unusedVariables false

/-- An element of an order's `items` array: a string-keyed mapping such as
one holding a `product_name` entry; Python `dict.get` becomes `List.lookup`
with a default. -/
abbrev OrderItem : Type := List (String × String)

/-- The `PayhipOrder` dataclass of `Main.py`. -/
structure PayhipOrder where
  id : String
  status : String
  total : String
  customer_email : String
  items : List OrderItem
deriving DecidableEq

/-- A raw order record of the JSON body's `data` array, as `fetch_orders`
reads it: each of the four required keys may be absent (reading an absent key
raises `KeyError` in the comprehension), and `items` is read via `.get` with a
`[]` default. -/
structure RawOrder where
  id? : Option String
  status? : Option String
  total? : Option String
  customer_email? : Option String
  items? : Option (List OrderItem)
deriving DecidableEq

/-- One element of the list comprehension in `fetch_orders`: build a
`PayhipOrder` from a raw record.  The keys are read in source order
(`id`, `status`, `total`, `customer_email`); the first absent one raises
`KeyError`, whose `str` is the quoted key name. -/
def parseRawOrder (o : RawOrder) : Except String PayhipOrder :=
  match o.id? with
  | none => .error "\x27id\x27"
  | some i =>
    match o.status? with
    | none => .error "\x27status\x27"
    | some st =>
      match o.total? with
      | none => .error "\x27total\x27"
      | some t =>
        match o.customer_email? with
        | none => .error "\x27customer_email\x27"
        | some ce => .ok ⟨i, st, t, ce, o.items?.getD []⟩

/-- The whole comprehension `[PayhipOrder(...) for order in data]`: elements
are built left to right and the first malformed record aborts the whole list
with its `KeyError`. -/
def parseData : List RawOrder → Except String (List PayhipOrder)
  | [] => .ok []
  | o :: rest =>
    match parseRawOrder o with
    | .error k => .error k
    | .ok p =>
      match parseData rest with
      | .error k => .error k
      | .ok ps => .ok (p :: ps)

/-- Outcome of the HTTP GET in `fetch_orders`, before parsing: either an
exception (transport error, timeout, or the non-2xx turned into an exception
by `raise_for_status`) carrying its message, or a JSON body whose `data`
array holds raw order records. -/
inductive FetchResponse where
  | failure (msg : String)
  | success (data : List RawOrder)

/-- Embedding of `PayhipMonitor.fetch_orders`: returns the parsed orders together with the
log lines the call appends.  Every failure mode (transport error, non-2xx,
malformed record) lands in the `except Exception` block, which logs a single
`API Error:` line and returns `[]`. -/
def fetch_orders : FetchResponse → List PayhipOrder × List String
  | .failure msg => ([], ["API Error: " ++ msg])
  | .success data =>
    match parseData data with
    | .ok orders => (orders, [])
    | .error k => ([], ["API Error: " ++ k])

/-- The static shape of an outbound HTTP request. -/
structure HttpRequest where
  url : String
  headers : List (String × String)
  params : List (String × Nat)
  timeout : Nat
deriving DecidableEq

/-- The request `fetch_orders` issues via `requests.get`. -/
def ordersRequest (payhip_key : String) : HttpRequest :=
  { url := "https://payhip.com/api/v1/orders"
  , headers := [("Authorization", "Bearer " ++ payhip_key)]
  , params := [("limit", 5)]
  , timeout := 10 }

/-- A field of a Discord embed, as produced by `Embed.add_field`. -/
structure EmbedField where
  name : String
  value : String
  isInline : Bool
deriving DecidableEq

/-- The parts of `discord.Embed` that `send_notification` sets. -/
structure DiscordEmbed where
  title : String
  description : String
  fields : List EmbedField
deriving DecidableEq

/-- One line of the products field: `- ` followed by the item's
`product_name` value, or the fallback `Unknown` when the key is absent. -/
def itemLine (item : OrderItem) : String :=
  "- " ++ ((item.lookup "product_name").getD "Unknown")

/-- The embed built by `send_notification` (`add_field` defaults to an
inlined field; the products field passes the flag as false and is added only
when `order.items` is non-empty). -/
def buildEmbed (order : PayhipOrder) : DiscordEmbed :=
  let base : DiscordEmbed :=
    { title := "Someone is buying you\x27re digital product!!!"
    , description := "**Order ID:** `" ++ order.id ++ "`"
    , fields :=
        [ ⟨"Total: ", "$" ++ order.total, true⟩
        , ⟨"Customer(EMAIL): ", order.customer_email, true⟩ ] }
  if order.items.isEmpty then base
  else
    { base with
        fields := base.fields ++
          [ ⟨"Products(this is what you\x27re customer is bought)",
             String.intercalate "\n" (order.items.map itemLine), false⟩ ] }

/-- The mutable state of a `PayhipMonitor`: the seen-order set
`processed_orders`, the bounded `gui_log`, the `bot_running` flag, plus the
externally visible status of the recurring task and of the Discord
connection. -/
structure MonitorState where
  processed_orders : List String
  gui_log : List String
  bot_running : Bool
  task_running : Bool
  conn_closed : Bool
deriving DecidableEq

/-- Append on a `deque(maxlen=50)`-style buffer: when the buffer is at
capacity the oldest (leftmost) entry is evicted first. -/
def dequeAppend (maxlen : Nat) (l : List String) (m : String) : List String :=
  if maxlen ≤ l.length then l.tail ++ [m] else l ++ [m]

/-- Embedding of `PayhipMonitor.log`: append a message to the bounded `gui_log` (the GUI
mirroring has no effect on monitor state). -/
def MonitorState.log (s : MonitorState) (m : String) : MonitorState :=
  { s with gui_log := dequeAppend 50 s.gui_log m }

/-- Append several log lines in order. -/
def logAll (s : MonitorState) (msgs : List String) : MonitorState :=
  msgs.foldl MonitorState.log s

/-- The environment one firing of the `check_orders` task runs in: the HTTP
response this tick's `fetch_orders` call receives, whether
`bot.get_channel(channel_id)` returns a channel, and for which order ids the
`channel.send` inside `send_notification` succeeds. -/
structure CycleEnv where
  fetchResp : FetchResponse
  channelOk : Bool
  notifyOk : String → Bool

/-- What one firing of `check_orders` did: the resulting monitor state, the
orders passed to `send_notification` in call order, and whether an exception
escaped the task body (a failing `channel.send` is caught nowhere in
`check_orders`). -/
structure CycleResult where
  state : MonitorState
  notified : List PayhipOrder
  raised : Bool

/-- The `for order in orders` loop of `check_orders`.  On a successful
dispatch the id is added to `processed_orders` and a `New Order:` line is
logged; on a failed dispatch the exception aborts the loop at once — the id
is not added, nothing is logged, the remaining orders are not examined. -/
def processOrders (nk : String → Bool) : MonitorState → List PayhipOrder → CycleResult
  | s, [] => ⟨s, [], false⟩
  | s, o :: rest =>
    if o.status = "completed" ∧ o.id ∉ s.processed_orders then
      if nk o.id then
        let s1 : MonitorState := { s with processed_orders := s.processed_orders.insert o.id }
        let s2 := s1.log ("New Order: " ++ o.id)
        let r := processOrders nk s2 rest
        ⟨r.state, o :: r.notified, r.raised⟩
      else ⟨s, [o], true⟩
    else processOrders nk s rest

/-- One firing of the `check_orders` task: the fetch happens first (with its
log side effects), then the channel guard returns early if the lookup fails,
then the dispatch loop runs. -/
def check_orders (env : CycleEnv) (s : MonitorState) : CycleResult :=
  let fr := fetch_orders env.fetchResp
  let s1 := logAll s fr.2
  if env.channelOk then processOrders env.notifyOk s1 fr.1
  else ⟨s1, [], false⟩

/-- The orders a cycle's fetch yields. -/
def fetchedOrders (env : CycleEnv) : List PayhipOrder :=
  (fetch_orders env.fetchResp).1

/-- A run of the recurring task: it fires once per element of the
environment list.  An iteration whose body raises ends the run (the task
machinery stops a loop on an unhandled exception).  Returns the final state
and all orders passed to `send_notification`, in order. -/
def runCycles : MonitorState → List CycleEnv → MonitorState × List PayhipOrder
  | s, [] => (s, [])
  | s, e :: rest =>
    let r := check_orders e s
    if r.raised then (r.state, r.notified)
    else
      let r2 := runCycles r.state rest
      (r2.1, r.notified ++ r2.2)

/-- Embedding of `PayhipMonitor.stop_bot`: early return when the bot is not running;
otherwise log, clear the running flag, stop the recurring task, request the
connection teardown when not already closed, and log again. -/
def stop_bot (s : MonitorState) : MonitorState :=
  if !s.bot_running then s
  else
    let s1 := s.log "Stopping bot..."
    let s2 : MonitorState := { s1 with bot_running := false, task_running := false }
    let s3 : MonitorState := if !s2.conn_closed then { s2 with conn_closed := true } else s2
    s3.log "Bot stopped successfully"

/-- A raw record carrying exactly the fields of a parsed order. -/
def rawOfOrder (o : PayhipOrder) : RawOrder :=
  ⟨some o.id, some o.status, some o.total, some o.customer_email, some o.items⟩

/-- A record missing one of the keys the comprehension reads
unconditionally. -/
def malformedRaw (r : RawOrder) : Prop :=
  r.id? = none ∨ r.status? = none ∨ r.total? = none ∨ r.customer_email? = none

/-- The failure modes of a fetch: a raised transport/HTTP error, or a body
whose `data` array fails to parse. -/
def fetchFailed : FetchResponse → Prop
  | .failure _ => True
  | .success data => ∃ k, parseData data = .error k

lemma logAll_processed (msgs : List String) :
    ∀ s : MonitorState, (logAll s msgs).processed_orders = s.processed_orders := by
  induction msgs with
  | nil => intro s; rfl
  | cons m ms ih => intro s; simpa [logAll, MonitorState.log] using ih (s.log m)

lemma parseRawOrder_rawOfOrder (o : PayhipOrder) :
    parseRawOrder (rawOfOrder o) = .ok o := rfl

lemma fetch_single (o : PayhipOrder) :
    fetch_orders (.success [rawOfOrder o]) = ([o], []) := by
  simp [fetch_orders, parseData, parseRawOrder_rawOfOrder]

/-- Claim C8: calling stop while the bot is not running returns immediately
and changes nothing: not the loop state, not the seen-order registry, not the
log, not the connection. -/
theorem stop_noop (s : MonitorState) (h : s.bot_running = false) : stop_bot s = s := by
  simp [stop_bot, h]

theorem stop_noop_witness :
    stop_bot ⟨["hello"], ["started"], false, false, false⟩
      = ⟨["hello"], ["started"], false, false, false⟩ :=
  stop_noop ⟨["hello"], ["started"], false, false, false⟩ rfl

/-- Claim C4: every fetch failure mode (transport error, non-2xx, malformed
payload) is absorbed by `fetch_orders`: no exception reaches the cycle, the
result is the empty list plus exactly one log line, the registry is untouched
and the cycle ends normally (so the next tick is still scheduled). -/
theorem fetch_error_contained (env : CycleEnv) (s : MonitorState)
    (hf : fetchFailed env.fetchResp) :
    (fetch_orders env.fetchResp).1 = [] ∧
    (fetch_orders env.fetchResp).2.length = 1 ∧
    (check_orders env s).state.processed_orders = s.processed_orders ∧
    (check_orders env s).notified = [] ∧
    (check_orders env s).raised = false := by
  have hfe : ∃ m, fetch_orders env.fetchResp = ([], ["API Error: " ++ m]) := by
    cases henv : env.fetchResp with
    | failure msg => exact ⟨msg, rfl⟩
    | success data =>
      rw [henv] at hf
      obtain ⟨k, hk⟩ := hf
      exact ⟨k, by simp [fetch_orders, hk]⟩
  obtain ⟨m, hm⟩ := hfe
  refine ⟨by simp [hm], by simp [hm], ?_, ?_, ?_⟩ <;>
    cases hch : env.channelOk <;>
      simp [check_orders, hm, hch, processOrders, logAll_processed]

theorem fetch_error_contained_witness :
    (fetch_orders (.failure "timeout")).1 = [] ∧
    (fetch_orders (.failure "timeout")).2.length = 1 ∧
    (check_orders ⟨.failure "timeout", true, fun _ => true⟩
        ⟨["A"], [], true, true, false⟩).state.processed_orders = ["A"] ∧
    (check_orders ⟨.failure "timeout", true, fun _ => true⟩
        ⟨["A"], [], true, true, false⟩).notified = [] ∧
    (check_orders ⟨.failure "timeout", true, fun _ => true⟩
        ⟨["A"], [], true, true, false⟩).raised = false :=
  fetch_error_contained ⟨.failure "timeout", true, fun _ => true⟩
    ⟨["A"], [], true, true, false⟩ trivial

lemma parseData_ok_map (data : List RawOrder) :
    ∀ orders, parseData data = .ok orders →
      data.map parseRawOrder = orders.map Except.ok := by
  induction data with
  | nil =>
    intro orders h
    simp [parseData] at h
    simp [← h]
  | cons o rest ih =>
    intro orders h
    cases hp : parseRawOrder o with
    | error k => simp [parseData, hp] at h
    | ok p =>
      cases hr : parseData rest with
      | error k => simp [parseData, hp, hr] at h
      | ok ps =>
        simp [parseData, hp, hr] at h
        simp [← h, hp, ih ps hr]

/-- Claim C5, counterexample: `fetch_orders` never truncates the `data`
array, so a (contract-violating) response carrying six records yields six
orders — the returned length is not bounded by the configured limit of 5 by
the code itself. -/
theorem fetch_limit_counterexample :
    ¬ ((fetch_orders (.success (List.replicate 6
        (rawOfOrder ⟨"A", "completed", "9.99", "x@y.com", []⟩)))).1.length ≤ 5) := by
  decide

/-- Claim C5 (amended): on success `fetch_orders` returns exactly one order
per record of the response's `data` array, in the order supplied by the
remote API — so the length equals the data array's length and is ≤ 5
whenever the remote honors the `limit=5` parameter the request carries; the
request also carries a 10-second timeout. -/
theorem fetch_success_shape (data : List RawOrder) (orders : List PayhipOrder)
    (key : String) (h : parseData data = .ok orders) :
    (fetch_orders (.success data)).1 = orders ∧
    data.map parseRawOrder = orders.map Except.ok ∧
    orders.length = data.length ∧
    (ordersRequest key).params = [("limit", 5)] ∧
    (ordersRequest key).timeout = 10 := by
  have hmap := parseData_ok_map data orders h
  have hlen : orders.length = data.length := by
    have := congrArg List.length hmap
    simpa using this.symm
  exact ⟨by simp [fetch_orders, h], hmap, hlen, rfl, rfl⟩

theorem fetch_success_shape_witness :
    (fetch_orders (.success [rawOfOrder ⟨"A", "completed", "9.99", "x@y.com", []⟩])).1
        = [⟨"A", "completed", "9.99", "x@y.com", []⟩] ∧
    (ordersRequest "k").params = [("limit", 5)] ∧
    (ordersRequest "k").timeout = 10 :=
  have h := fetch_success_shape [rawOfOrder ⟨"A", "completed", "9.99", "x@y.com", []⟩]
    [⟨"A", "completed", "9.99", "x@y.com", []⟩] "k" (by rfl)
  ⟨h.1, h.2.2.2.1, h.2.2.2.2⟩

/-- Claim C2, counterexample: a completed, unseen order whose dispatch fails.
The cycle appends no log line at all (the claimed error logging does not
exist: `send_notification` is awaited with no `try` around it), and the
exception escapes the task body. -/
theorem dispatch_failure_counterexample :
    (check_orders ⟨.success [rawOfOrder ⟨"X", "completed", "5.00", "a@b.c", []⟩],
        true, fun _ => false⟩ ⟨[], [], true, true, false⟩).state.gui_log = [] ∧
    (check_orders ⟨.success [rawOfOrder ⟨"X", "completed", "5.00", "a@b.c", []⟩],
        true, fun _ => false⟩ ⟨[], [], true, true, false⟩).raised = true := by
  constructor <;> rfl

/-- Claim C2 (amended): if dispatch fails for a completed, unseen order X,
the exception propagates out of the fetch cycle — nothing is logged, X's id
is not added to the registry, the cycle's state is exactly the pre-cycle
state — and any later fetch cycle that executes and still returns X with
status `completed` performs another notify attempt. -/
theorem dispatch_failure_retry (o : PayhipOrder) (s : MonitorState)
    (nk1 nk2 : String → Bool) (hst : o.status = "completed")
    (hns : o.id ∉ s.processed_orders) (hfail : nk1 o.id = false) :
    (check_orders ⟨.success [rawOfOrder o], true, nk1⟩ s).raised = true ∧
    (check_orders ⟨.success [rawOfOrder o], true, nk1⟩ s).state = s ∧
    (check_orders ⟨.success [rawOfOrder o], true, nk1⟩ s).notified = [o] ∧
    o ∈ (check_orders ⟨.success [rawOfOrder o], true, nk2⟩
          (check_orders ⟨.success [rawOfOrder o], true, nk1⟩ s).state).notified := by
  obtain ⟨oid, ost, ot, oce, oit⟩ := o
  simp only at hst hns hfail
  subst hst
  have h1 : check_orders ⟨.success [rawOfOrder ⟨oid, "completed", ot, oce, oit⟩], true, nk1⟩ s
      = ⟨s, [⟨oid, "completed", ot, oce, oit⟩], true⟩ := by
    simp [check_orders, fetch_orders, parseData, parseRawOrder, rawOfOrder, logAll,
      processOrders, hns, hfail]
  refine ⟨by rw [h1], by rw [h1], by rw [h1], ?_⟩
  rw [h1]
  cases hnk : nk2 oid <;>
    simp [check_orders, fetch_orders, parseData, parseRawOrder, rawOfOrder, logAll,
      processOrders, hns, hnk]

theorem dispatch_failure_retry_witness :
    (check_orders ⟨.success [rawOfOrder ⟨"C", "completed", "1.00", "c@d.e", []⟩],
        true, fun _ => false⟩ ⟨[], [], true, true, false⟩).raised = true ∧
    (⟨"C", "completed", "1.00", "c@d.e", []⟩ : PayhipOrder) ∈
      (check_orders ⟨.success [rawOfOrder ⟨"C", "completed", "1.00", "c@d.e", []⟩],
          true, fun _ => true⟩
        (check_orders ⟨.success [rawOfOrder ⟨"C", "completed", "1.00", "c@d.e", []⟩],
            true, fun _ => false⟩ ⟨[], [], true, true, false⟩).state).notified :=
  have h := dispatch_failure_retry ⟨"C", "completed", "1.00", "c@d.e", []⟩
    ⟨[], [], true, true, false⟩ (fun _ => false) (fun _ => true) rfl
    (by simp) rfl
  ⟨h.1, h.2.2.2⟩

lemma notify_attempted (o : PayhipOrder) (s : MonitorState) (nk : String → Bool)
    (hst : o.status = "completed") (hns : o.id ∉ s.processed_orders) :
    o ∈ (check_orders ⟨.success [rawOfOrder o], true, nk⟩ s).notified := by
  obtain ⟨oid, ost, ot, oce, oit⟩ := o
  simp only at hst hns
  subst hst
  cases hnk : nk oid <;>
    simp [check_orders, fetch_orders, parseData, parseRawOrder, rawOfOrder, logAll,
      processOrders, hns, hnk]

/-- Claim C9: when the channel lookup fails, the cycle — whose fetch has
already happened, with its log side effects — dispatches nothing, leaves the
registry unchanged, and ends normally; a completed order of that page is
still eligible on a later cycle that does find the channel. -/
theorem channel_missing_cycle (env : CycleEnv) (s : MonitorState)
    (h : env.channelOk = false) :
    (check_orders env s).notified = [] ∧
    (check_orders env s).raised = false ∧
    (check_orders env s).state.processed_orders = s.processed_orders ∧
    (check_orders env s).state = logAll s (fetch_orders env.fetchResp).2 ∧
    (∀ o : PayhipOrder, ∀ nk2 : String → Bool, o.status = "completed" →
      o.id ∉ s.processed_orders →
      o ∈ (check_orders ⟨FetchResponse.success [rawOfOrder o], true, nk2⟩
            (check_orders env s).state).notified) := by
  have hcc : check_orders env s
      = ⟨logAll s (fetch_orders env.fetchResp).2, [], false⟩ := by
    simp [check_orders, h]
  refine ⟨by rw [hcc], by rw [hcc], by rw [hcc, logAll_processed], by rw [hcc], ?_⟩
  intro o nk2 hst hns
  rw [hcc]
  refine notify_attempted o _ nk2 hst ?_
  rw [logAll_processed]
  exact hns

theorem channel_missing_cycle_witness :
    (check_orders ⟨.success [rawOfOrder ⟨"D", "completed", "2.00", "d@e.f", []⟩],
        false, fun _ => true⟩ ⟨[], [], true, true, false⟩).notified = [] ∧
    (check_orders ⟨.success [rawOfOrder ⟨"D", "completed", "2.00", "d@e.f", []⟩],
        false, fun _ => true⟩ ⟨[], [], true, true, false⟩).state.processed_orders = [] :=
  have h := channel_missing_cycle
    ⟨.success [rawOfOrder ⟨"D", "completed", "2.00", "d@e.f", []⟩], false, fun _ => true⟩
    ⟨[], [], true, true, false⟩ rfl
  ⟨h.1, h.2.2.1⟩

lemma parseRawOrder_error_of_malformed (o : RawOrder) (hm : malformedRaw o) :
    ∃ k, parseRawOrder o = .error k := by
  obtain ⟨i, st, t, ce, it⟩ := o
  cases i <;> cases st <;> cases t <;> cases ce <;>
    first
      | exact ⟨_, rfl⟩
      | (exfalso; simp [malformedRaw] at hm)

lemma parseData_error_of_malformed (data : List RawOrder) (r : RawOrder)
    (hr : r ∈ data) (hm : malformedRaw r) : ∃ k, parseData data = .error k := by
  induction data with
  | nil => cases hr
  | cons o rest ih =>
    rcases List.mem_cons.mp hr with heq | hr'
    · obtain ⟨k, hk⟩ := parseRawOrder_error_of_malformed o (heq ▸ hm)
      exact ⟨k, by simp [parseData, hk]⟩
    · cases hp : parseRawOrder o with
      | error k => exact ⟨k, by simp [parseData, hp]⟩
      | ok p =>
        obtain ⟨k, hk⟩ := ih hr'
        exact ⟨k, by simp [parseData, hp, hk]⟩

/-- Claim C10: one malformed record in a successful response makes
`fetch_orders` drop the whole page: the result is `[]`, exactly what a
failed fetch or a genuinely empty page returns, so every well-formed order
of the same page is dropped for that cycle too. -/
theorem malformed_record_drops_page (data : List RawOrder) (r : RawOrder)
    (hr : r ∈ data) (hm : malformedRaw r) :
    (fetch_orders (.success data)).1 = [] ∧
    (∀ msg, (fetch_orders (.success data)).1 = (fetch_orders (.failure msg)).1) ∧
    (fetch_orders (.success data)).1 = (fetch_orders (.success [])).1 := by
  obtain ⟨k, hk⟩ := parseData_error_of_malformed data r hr hm
  exact ⟨by simp [fetch_orders, hk], fun msg => by simp [fetch_orders, hk],
    by simp [fetch_orders, hk, parseData]⟩

theorem malformed_record_drops_page_witness :
    (fetch_orders (.success
      [rawOfOrder ⟨"G", "completed", "3.00", "g@h.i", []⟩,
       ⟨some "H", none, some "4.00", some "h@i.j", none⟩])).1 = [] :=
  (malformed_record_drops_page
    [rawOfOrder ⟨"G", "completed", "3.00", "g@h.i", []⟩,
     ⟨some "H", none, some "4.00", some "h@i.j", none⟩]
    ⟨some "H", none, some "4.00", some "h@i.j", none⟩
    (by simp) (Or.inr (Or.inl rfl))).1

lemma buildEmbed_fields (o : PayhipOrder) :
    (buildEmbed o).fields =
      [⟨"Total: ", "$" ++ o.total, true⟩,
       ⟨"Customer(EMAIL): ", o.customer_email, true⟩] ++
      (if o.items.isEmpty then [] else
        [⟨"Products(this is what you\x27re customer is bought)",
          String.intercalate "\n" (o.items.map itemLine), false⟩]) := by
  by_cases h : o.items.isEmpty <;> simp [buildEmbed, h]

/-- Claim C6: the dispatched message has a title, a total field whose value
is the literal dollar sign followed by the order's total string, a customer
email field, and an itemized products field — present exactly when `items`
is non-empty — listing each item's `product_name` (label `Unknown` when
absent) one entry per line, in input order. -/
theorem notification_format (o : PayhipOrder) :
    (buildEmbed o).title = "Someone is buying you\x27re digital product!!!" ∧
    (∃ f ∈ (buildEmbed o).fields, f.name = "Total: " ∧ f.value = "$" ++ o.total) ∧
    (∃ f ∈ (buildEmbed o).fields,
      f.name = "Customer(EMAIL): " ∧ f.value = o.customer_email) ∧
    (o.items ≠ [] ↔ (∃ f ∈ (buildEmbed o).fields,
      f.name = "Products(this is what you\x27re customer is bought)")) ∧
    (∀ f ∈ (buildEmbed o).fields,
      f.name = "Products(this is what you\x27re customer is bought)" →
      f.value = String.intercalate "\n"
        (o.items.map (fun it => "- " ++ ((it.lookup "product_name").getD "Unknown")))) := by
  have htitle : (buildEmbed o).title
      = "Someone is buying you\x27re digital product!!!" := by
    by_cases h : o.items.isEmpty <;> simp [buildEmbed, h]
  refine ⟨htitle, ?_, ?_, ?_, ?_⟩
  · exact ⟨⟨"Total: ", "$" ++ o.total, true⟩, by rw [buildEmbed_fields]; simp, rfl, rfl⟩
  · exact ⟨⟨"Customer(EMAIL): ", o.customer_email, true⟩,
      by rw [buildEmbed_fields]; simp, rfl, rfl⟩
  · rw [buildEmbed_fields]
    by_cases h : o.items.isEmpty
    · simp only [h, if_true]
      constructor
      · intro hne; exact absurd (List.isEmpty_iff.mp h) hne
      · rintro ⟨f, hf, hname⟩
        rcases List.mem_append.mp hf with hf' | hf'
        · rcases List.mem_cons.mp hf' with rfl | hf1
          · simp at hname
          · rcases List.mem_cons.mp hf1 with rfl | hf2
            · simp at hname
            · cases hf2
        · cases hf'
    · simp only [h, if_false]
      constructor
      · intro _
        exact ⟨⟨"Products(this is what you\x27re customer is bought)",
          String.intercalate "\n" (o.items.map itemLine), false⟩, by simp, rfl⟩
      · intro _
        exact fun he => h (by simp [he])
  · intro f hf hname
    rw [buildEmbed_fields] at hf
    rcases List.mem_append.mp hf with hf' | hf'
    · rcases List.mem_cons.mp hf' with rfl | hf1
      · simp at hname
      · rcases List.mem_cons.mp hf1 with rfl | hf2
        · simp at hname
        · cases hf2
    · by_cases h : o.items.isEmpty
      · rw [if_pos h] at hf'; cases hf'
      · rw [if_neg h] at hf'
        rcases List.mem_cons.mp hf' with rfl | hf2
        · rfl
        · cases hf2

/-- Number of notified orders carrying a given id. -/
def idCount (oid : String) (l : List PayhipOrder) : Nat :=
  l.countP (fun x => x.id == oid)

lemma processOrders_mono (nk : String → Bool) (os : List PayhipOrder) :
    ∀ s a, a ∈ s.processed_orders →
      a ∈ (processOrders nk s os).state.processed_orders := by
  induction os with
  | nil => intro s a h; exact h
  | cons o rest ih =>
    intro s a h
    by_cases hg : o.status = "completed" ∧ o.id ∉ s.processed_orders
    · simp only [processOrders, if_pos hg]
      cases hnk : nk o.id
      · simp only [hnk, Bool.false_eq_true, if_false]
        exact h
      · simp only [hnk, if_true]
        exact ih _ a (List.mem_insert_of_mem h)
    · simp only [processOrders, if_neg hg]
      exact ih s a h

lemma processOrders_count (oid : String) (nk : String → Bool) (hok : nk oid = true)
    (os : List PayhipOrder) :
    ∀ s : MonitorState,
      idCount oid (processOrders nk s os).notified ≤ 1 ∧
      (oid ∈ s.processed_orders →
        idCount oid (processOrders nk s os).notified = 0) ∧
      (1 ≤ idCount oid (processOrders nk s os).notified →
        oid ∈ (processOrders nk s os).state.processed_orders) := by
  induction os with
  | nil =>
    intro s
    refine ⟨by simp [processOrders, idCount], fun _ => by simp [processOrders, idCount],
      fun h1 => ?_⟩
    simp [processOrders, idCount] at h1
  | cons o rest ih =>
    intro s
    by_cases hg : o.status = "completed" ∧ o.id ∉ s.processed_orders
    · cases hnk : nk o.id
      · have hne : (o.id == oid) = false := by
          apply beq_eq_false_iff_ne.mpr
          intro he
          rw [he, hok] at hnk
          cases hnk
        simp only [processOrders, if_pos hg, hnk, Bool.false_eq_true, if_false]
        refine ⟨?_, fun _ => ?_, fun h1 => ?_⟩ <;>
          simp [idCount, List.countP_cons, hne] at *
      · simp only [processOrders, if_pos hg, hnk, if_true]
        by_cases hid : o.id = oid
        · have h2 : oid ∈ (({ s with processed_orders := s.processed_orders.insert o.id
              : MonitorState }).log ("New Order: " ++ o.id)).processed_orders := by
            simp [MonitorState.log]
            exact Or.inl hid.symm
          obtain ⟨ih1, ih2, ih3⟩ :=
            ih (({ s with processed_orders := s.processed_orders.insert o.id
              : MonitorState }).log ("New Order: " ++ o.id))
          have hz := ih2 h2
          have hcnt : idCount oid
              (o :: (processOrders nk (({ s with
                processed_orders := s.processed_orders.insert o.id
                : MonitorState }).log ("New Order: " ++ o.id)) rest).notified) = 1 := by
            simp [idCount, List.countP_cons, hid] at *
            simpa [idCount] using hz
          refine ⟨by rw [hcnt], fun hmem => absurd hmem (hid ▸ hg.2), fun _ => ?_⟩
          exact processOrders_mono nk rest _ oid h2
        · have hne : (o.id == oid) = false := beq_eq_false_iff_ne.mpr hid
          obtain ⟨ih1, ih2, ih3⟩ :=
            ih (({ s with processed_orders := s.processed_orders.insert o.id
              : MonitorState }).log ("New Order: " ++ o.id))
          have hcnt : ∀ l, idCount oid (o :: l) = idCount oid l := by
            intro l; simp [idCount, List.countP_cons, hne]
          refine ⟨by rw [hcnt]; exact ih1, fun hmem => ?_, fun h1 => ?_⟩
          · rw [hcnt]
            refine ih2 ?_
            simp [MonitorState.log]
            exact Or.inr hmem
          · rw [hcnt] at h1
            exact ih3 h1
    · simp only [processOrders, if_neg hg]
      exact ih s

lemma check_orders_mono (env : CycleEnv) (s : MonitorState) (a : String)
    (h : a ∈ s.processed_orders) :
    a ∈ (check_orders env s).state.processed_orders := by
  cases hch : env.channelOk
  · simp only [check_orders, hch, Bool.false_eq_true, if_false]
    rw [logAll_processed]
    exact h
  · simp only [check_orders, hch, if_true]
    exact processOrders_mono env.notifyOk _ _ a (by rw [logAll_processed]; exact h)

lemma check_orders_count (oid : String) (env : CycleEnv)
    (hok : env.notifyOk oid = true) (s : MonitorState) :
    idCount oid (check_orders env s).notified ≤ 1 ∧
    (oid ∈ s.processed_orders → idCount oid (check_orders env s).notified = 0) ∧
    (1 ≤ idCount oid (check_orders env s).notified →
      oid ∈ (check_orders env s).state.processed_orders) := by
  cases hch : env.channelOk
  · simp only [check_orders, hch, Bool.false_eq_true, if_false]
    refine ⟨by simp [idCount], fun _ => by simp [idCount], fun h1 => ?_⟩
    simp [idCount] at h1
  · simp only [check_orders, hch, if_true]
    obtain ⟨h1, h2, h3⟩ := processOrders_count oid env.notifyOk hok
      (fetch_orders env.fetchResp).1 (logAll s (fetch_orders env.fetchResp).2)
    exact ⟨h1, fun hm => h2 (by rw [logAll_processed]; exact hm), h3⟩

lemma runCycles_mono (envs : List CycleEnv) :
    ∀ s a, a ∈ s.processed_orders → a ∈ (runCycles s envs).1.processed_orders := by
  induction envs with
  | nil => intro s a h; exact h
  | cons e rest ih =>
    intro s a h
    cases hr : (check_orders e s).raised
    · simp only [runCycles, hr, Bool.false_eq_true, if_false]
      exact ih _ a (check_orders_mono e s a h)
    · simp only [runCycles, hr, if_true]
      exact check_orders_mono e s a h

lemma runCycles_count (oid : String) (envs : List CycleEnv)
    (hok : ∀ e ∈ envs, e.notifyOk oid = true) :
    ∀ s : MonitorState,
      idCount oid (runCycles s envs).2 ≤ 1 ∧
      (oid ∈ s.processed_orders → idCount oid (runCycles s envs).2 = 0) ∧
      (1 ≤ idCount oid (runCycles s envs).2 →
        oid ∈ (runCycles s envs).1.processed_orders) := by
  induction envs with
  | nil =>
    intro s
    refine ⟨by simp [runCycles, idCount], fun _ => by simp [runCycles, idCount],
      fun h1 => ?_⟩
    simp [runCycles, idCount] at h1
  | cons e rest ih =>
    intro s
    have hoke : e.notifyOk oid = true := hok e (List.mem_cons_self e rest)
    have hokr : ∀ e' ∈ rest, e'.notifyOk oid = true :=
      fun e' he' => hok e' (List.mem_cons_of_mem e he')
    obtain ⟨c1, c2, c3⟩ := check_orders_count oid e hoke s
    obtain ⟨r1, r2, r3⟩ := (ih hokr) (check_orders e s).state
    cases hr : (check_orders e s).raised
    · simp only [runCycles, hr, Bool.false_eq_true, if_false]
      have happ : idCount oid ((check_orders e s).notified
          ++ (runCycles (check_orders e s).state rest).2)
          = idCount oid (check_orders e s).notified
            + idCount oid (runCycles (check_orders e s).state rest).2 := by
        simp [idCount, List.countP_append]
      refine ⟨?_, fun hm => ?_, fun h1 => ?_⟩
      · rw [happ]
        rcases Nat.eq_zero_or_pos (idCount oid (check_orders e s).notified) with hz | hp
        · rw [hz]; simpa using r1
        · have := r2 (c3 hp)
          omega
      · rw [happ, c2 hm, r2 (check_orders_mono e s oid hm)]
      · rw [happ] at h1
        rcases Nat.eq_zero_or_pos (idCount oid (check_orders e s).notified) with hz | hp
        · rw [hz] at h1
          simp at h1
          exact r3 h1
        · exact runCycles_mono rest _ oid (c3 hp)
    · simp only [runCycles, hr, if_true]
      exact ⟨c1, c2, c3⟩

/-- Claim C1: across a whole run in which dispatch succeeds for a given id
whenever attempted (in particular when the first attempt succeeds), at most
one `send_notification` call carries that id — once dispatched, the id sits
in `processed_orders` and every later cycle's filter skips it. -/
theorem no_duplicate_notification (s : MonitorState) (envs : List CycleEnv)
    (oid : String) (hok : ∀ e ∈ envs, e.notifyOk oid = true) :
    idCount oid (runCycles s envs).2 ≤ 1 :=
  (runCycles_count oid envs hok s).1

theorem no_duplicate_notification_witness :
    idCount "X" (runCycles ⟨[], [], true, true, false⟩
      [⟨.success [rawOfOrder ⟨"X", "completed", "5.00", "a@b.c", []⟩], true, fun _ => true⟩,
       ⟨.success [rawOfOrder ⟨"X", "completed", "5.00", "a@b.c", []⟩], true, fun _ => true⟩]).2
      ≤ 1 :=
  no_duplicate_notification ⟨[], [], true, true, false⟩
    [⟨.success [rawOfOrder ⟨"X", "completed", "5.00", "a@b.c", []⟩], true, fun _ => true⟩,
     ⟨.success [rawOfOrder ⟨"X", "completed", "5.00", "a@b.c", []⟩], true, fun _ => true⟩]
    "X" (by
      intro e he
      rcases List.mem_cons.mp he with rfl | he'
      · rfl
      · rcases List.mem_cons.mp he' with rfl | he''
        · rfl
        · cases he'')

lemma processOrders_notified_completed (nk : String → Bool) (os : List PayhipOrder) :
    ∀ s, ∀ o' ∈ (processOrders nk s os).notified, o'.status = "completed" := by
  induction os with
  | nil => intro s o' h; simp [processOrders] at h
  | cons o rest ih =>
    intro s o' h
    by_cases hg : o.status = "completed" ∧ o.id ∉ s.processed_orders
    · simp only [processOrders, if_pos hg] at h
      cases hnk : nk o.id
      · simp only [hnk, Bool.false_eq_true, if_false] at h
        rcases List.mem_cons.mp h with rfl | h'
        · exact hg.1
        · cases h'
      · simp only [hnk, if_true] at h
        rcases List.mem_cons.mp h with rfl | h'
        · exact hg.1
        · exact ih _ o' h'
    · simp only [processOrders, if_neg hg] at h
      exact ih s o' h

lemma processOrders_processed_sub (nk : String → Bool) (os : List PayhipOrder) :
    ∀ s a, a ∈ (processOrders nk s os).state.processed_orders →
      a ∈ s.processed_orders ∨ ∃ o' ∈ os, o'.id = a ∧ o'.status = "completed" := by
  induction os with
  | nil => intro s a h; exact Or.inl h
  | cons o rest ih =>
    intro s a h
    by_cases hg : o.status = "completed" ∧ o.id ∉ s.processed_orders
    · simp only [processOrders, if_pos hg] at h
      cases hnk : nk o.id
      · simp only [hnk, Bool.false_eq_true, if_false] at h
        exact Or.inl h
      · simp only [hnk, if_true] at h
        rcases ih _ a h with h' | ⟨o'', ho1, ho2⟩
        · simp only [MonitorState.log] at h'
          rcases List.mem_insert_iff.mp h' with rfl | hmem
          · exact Or.inr ⟨o, List.mem_cons_self o rest, rfl, hg.1⟩
          · exact Or.inl hmem
        · exact Or.inr ⟨o'', List.mem_cons_of_mem o ho1, ho2⟩
    · simp only [processOrders, if_neg hg] at h
      rcases ih s a h with h' | ⟨o'', ho1, ho2⟩
      · exact Or.inl h'
      · exact Or.inr ⟨o'', List.mem_cons_of_mem o ho1, ho2⟩

lemma check_orders_notified_completed (env : CycleEnv) (s : MonitorState) :
    ∀ o' ∈ (check_orders env s).notified, o'.status = "completed" := by
  intro o' h
  cases hch : env.channelOk
  · simp only [check_orders, hch, Bool.false_eq_true, if_false] at h
    cases h
  · simp only [check_orders, hch, if_true] at h
    exact processOrders_notified_completed env.notifyOk _ _ o' h

lemma check_orders_processed_sub (env : CycleEnv) (s : MonitorState) (a : String)
    (h : a ∈ (check_orders env s).state.processed_orders) :
    a ∈ s.processed_orders ∨
      ∃ o' ∈ fetchedOrders env, o'.id = a ∧ o'.status = "completed" := by
  cases hch : env.channelOk
  · simp only [check_orders, hch, Bool.false_eq_true, if_false] at h
    rw [logAll_processed] at h
    exact Or.inl h
  · simp only [check_orders, hch, if_true] at h
    rcases processOrders_processed_sub env.notifyOk _ _ a h with h' | hex
    · rw [logAll_processed] at h'
      exact Or.inl h'
    · exact Or.inr hex

lemma runCycles_notified_completed (envs : List CycleEnv) :
    ∀ s, ∀ o' ∈ (runCycles s envs).2, o'.status = "completed" := by
  induction envs with
  | nil => intro s o' h; simp [runCycles] at h
  | cons e rest ih =>
    intro s o' h
    cases hr : (check_orders e s).raised
    · simp only [runCycles, hr, Bool.false_eq_true, if_false] at h
      rcases List.mem_append.mp h with h' | h'
      · exact check_orders_notified_completed e s o' h'
      · exact ih _ o' h'
    · simp only [runCycles, hr, if_true] at h
      exact check_orders_notified_completed e s o' h

lemma runCycles_processed_sub (envs : List CycleEnv) :
    ∀ s a, a ∈ (runCycles s envs).1.processed_orders →
      a ∈ s.processed_orders ∨
        ∃ e ∈ envs, ∃ o' ∈ fetchedOrders e, o'.id = a ∧ o'.status = "completed" := by
  induction envs with
  | nil => intro s a h; exact Or.inl h
  | cons e rest ih =>
    intro s a h
    cases hr : (check_orders e s).raised
    · simp only [runCycles, hr, Bool.false_eq_true, if_false] at h
      rcases ih _ a h with h' | ⟨e', he1, hex⟩
      · rcases check_orders_processed_sub e s a h' with h'' | hex
        · exact Or.inl h''
        · exact Or.inr ⟨e, List.mem_cons_self e rest, hex⟩
      · exact Or.inr ⟨e', List.mem_cons_of_mem e he1, hex⟩
    · simp only [runCycles, hr, if_true] at h
      rcases check_orders_processed_sub e s a h with h'' | hex
      · exact Or.inl h''
      · exact Or.inr ⟨e, List.mem_cons_self e rest, hex⟩

/-- Claim C3: an order whose status is not `completed` is never passed to
`send_notification` during any run, and — as long as no completed order with
the same id shows up and the id was not already registered — its id never
enters `processed_orders`, whatever else the registry holds. -/
theorem status_filter (envs : List CycleEnv) (s : MonitorState) (o : PayhipOrder)
    (h : o.status ≠ "completed") :
    o ∉ (runCycles s envs).2 ∧
    ((o.id ∉ s.processed_orders ∧
      ∀ e ∈ envs, ∀ o' ∈ fetchedOrders e, o'.id = o.id → o'.status ≠ "completed") →
      o.id ∉ (runCycles s envs).1.processed_orders) := by
  constructor
  · intro hmem
    exact h (runCycles_notified_completed envs s o hmem)
  · rintro ⟨hns, hnone⟩ hmem
    rcases runCycles_processed_sub envs s o.id hmem with h' | ⟨e, he, o', ho1, ho2, ho3⟩
    · exact hns h'
    · exact hnone e he o' ho1 ho2 ho3

theorem status_filter_witness :
    (⟨"B", "pending", "7.00", "b@c.d", []⟩ : PayhipOrder) ∉
      (runCycles ⟨[], [], true, true, false⟩
        [⟨.success [rawOfOrder ⟨"B", "pending", "7.00", "b@c.d", []⟩],
          true, fun _ => true⟩]).2 :=
  (status_filter [⟨.success [rawOfOrder ⟨"B", "pending", "7.00", "b@c.d", []⟩],
      true, fun _ => true⟩]
    ⟨[], [], true, true, false⟩ ⟨"B", "pending", "7.00", "b@c.d", []⟩ (by decide)).1

lemma foldl_dequeAppend (msgs : List String) :
    ∀ l : List String, l.length ≤ 50 →
      msgs.foldl (dequeAppend 50) l = (l ++ msgs).drop ((l ++ msgs).length - 50) := by
  induction msgs with
  | nil =>
    intro l hl
    simp [Nat.sub_eq_zero_of_le hl]
  | cons m ms ih =>
    intro l hl
    rw [List.foldl_cons]
    by_cases hfull : 50 ≤ l.length
    · have hlen : l.length = 50 := le_antisymm hl hfull
      have hda : dequeAppend 50 l m = l.tail ++ [m] := by
        simp [dequeAppend, hfull]
      rw [hda]
      cases l with
      | nil => simp at hlen
      | cons a t =>
        have ht : t.length = 49 := by simpa using hlen
        rw [show (a :: t).tail = t from rfl]
        rw [ih (t ++ [m]) (by simp [ht])]
        have e1 : (t ++ [m]) ++ ms = t ++ m :: ms := by simp
        have e2 : (a :: t) ++ m :: ms = a :: (t ++ m :: ms) := by simp
        rw [e1, e2]
        have l1 : (t ++ m :: ms).length - 50 = ms.length := by
          simp [ht]
          omega
        have l2 : (a :: (t ++ m :: ms)).length - 50 = ms.length + 1 := by
          simp [ht]
        rw [l1, l2, List.drop_succ_cons]
    · have hda : dequeAppend 50 l m = l ++ [m] := by
        simp [dequeAppend, hfull]
      rw [hda, ih (l ++ [m]) (by simp; omega)]
      have e : (l ++ [m]) ++ ms = l ++ m :: ms := by simp
      rw [e]

lemma logAll_gui_log (msgs : List String) :
    ∀ s : MonitorState,
      (logAll s msgs).gui_log = msgs.foldl (dequeAppend 50) s.gui_log := by
  induction msgs with
  | nil => intro s; rfl
  | cons m ms ih =>
    intro s
    simpa [logAll, MonitorState.log] using ih (s.log m)

/-- Claim C7: starting from an empty log, after more than 50 appended events
the log holds exactly the last 50 of them, oldest first — the
`deque(maxlen=50)` behaves as a capacity-50 ring buffer evicting the oldest
entry on overflow. -/
theorem bounded_log (s : MonitorState) (msgs : List String) (hs : s.gui_log = [])
    (h : 50 < msgs.length) :
    (logAll s msgs).gui_log = msgs.drop (msgs.length - 50) ∧
    (logAll s msgs).gui_log.length = 50 := by
  have hg : (logAll s msgs).gui_log = msgs.drop (msgs.length - 50) := by
    rw [logAll_gui_log, hs]
    simpa using foldl_dequeAppend msgs [] (by simp)
  refine ⟨hg, ?_⟩
  rw [hg, List.length_drop]
  omega

theorem bounded_log_witness :
    (logAll ⟨[], [], true, true, false⟩ (List.replicate 51 "m")).gui_log
      = (List.replicate 51 "m").drop ((List.replicate 51 "m").length - 50) ∧
    (logAll ⟨[], [], true, true, false⟩ (List.replicate 51 "m")).gui_log.length = 50 :=
  bounded_log ⟨[], [], true, true, false⟩ (List.replicate 51 "m") rfl (by simp)
